import Mathlib

/-!
A verification development for the `vdb` retrieval-augmented-generation tool
(`src/main.go`).  The Go code is shallowly embedded as follows:

* Go strings are embedded as `List Char` (`Str`); Go `float32`/`float64`
  arithmetic is embedded as exact arithmetic over `ℚ` (the claims under
  study are robust to rounding: every comparison they rely on is far from
  equality in `float32`).
* The Go map `map[float32]string` in `getSimilarChunks` is embedded as an
  association list whose keys are kept distinct; inserting an existing key
  overwrites its value, exactly as a Go map does.  The iteration order of a
  Go map is irrelevant here because the code sorts the collected keys.
* Go runtime panics (out-of-range slice and index expressions) are embedded
  by returning `none` from an `Option`-valued function.
* The persistent `vdb.gob` snapshot is embedded as a `DiskState`: absent,
  corrupt (present but undecodable), or a decoded record list.  `gob`
  encoding of a record list is assumed faithful, so the snapshot holds the
  records themselves.
* The embedding runtime (Ollama) is an external collaborator; functions that
  consume embeddings take them as parameters, index-aligned with their text
  inputs, together with a flag recording whether the embedding call reported
  an error (the Go code only logs that error).
-/

namespace Vdb

/-- Go strings, embedded as lists of characters. -/
abbrev Str := List Char

/-! ### Chunker (`clean`, `removeDuplicates`, `removeShortStrings`) -/

/-- One step of Go `strings.Split(s, sep)` for a non-empty separator
`s0 :: srest`: scan left to right, cutting at each leftmost, non-overlapping
occurrence of the separator.  `fuel` only bounds the recursion; every step
consumes at least one character, so `s.length` fuel is always enough. -/
def splitOnAux (s0 : Char) (srest : List Char) : ℕ → Str → Str → List Str
  | _, [], acc => [acc.reverse]
  | 0, rest, acc => [acc.reverse ++ rest]
  | fuel + 1, c :: rest, acc =>
    if (s0 :: srest).isPrefixOf (c :: rest) then
      acc.reverse :: splitOnAux s0 srest fuel (rest.drop srest.length) []
    else
      splitOnAux s0 srest fuel rest (c :: acc)

/-- Go `strings.Split(s, sep)` for a non-empty separator. -/
def splitOnSep (s0 : Char) (srest : List Char) (s : Str) : List Str :=
  splitOnAux s0 srest s.length s []

/-- Go `strings.TrimSpace`: remove leading and trailing whitespace. -/
def trimSpace (s : Str) : Str :=
  ((s.dropWhile Char.isWhitespace).reverse.dropWhile Char.isWhitespace).reverse

/-- The loop body of Go `removeDuplicates`: `m` is the set of strings seen so
far (the Go `map[string]bool`), `result` the accumulated output. -/
def removeDuplicatesAux (m : List Str) (result : List Str) : List Str → List Str
  | [] => result
  | item :: rest =>
    if item ∈ m then removeDuplicatesAux m result rest
    else removeDuplicatesAux (item :: m) (result ++ [item]) rest

/-- Go `removeDuplicates`: keep the first occurrence of each string. -/
def removeDuplicates (s : List Str) : List Str :=
  removeDuplicatesAux [] [] s

/-- Go `removeShortStrings`: keep the strings whose split on the single space
character `' '` has more than 3 fields (`len(strings.Split(str, " ")) > 3`). -/
def removeShortStrings (slice : List Str) : List Str :=
  slice.foldl
    (fun result str =>
      if 3 < (splitOnSep ' ' [] str).length then result ++ [str] else result)
    []

/-- Go `clean`: split the document on blank lines (`"\n\n"`), trim each
segment, drop duplicates, drop short segments. -/
def clean (content : Str) : List Str :=
  removeShortStrings (removeDuplicates ((splitOnSep '\n' ['\n'] content).map trimSpace))

/-! Spec-side definitions for the chunker claims. -/

/-- Spec-side definition, following the spec wording: the first-occurrence deduplication the spec
describes — "keep only the first occurrence of each exact-text segment,
preserving original order".  Keeping a head and erasing its later duplicates
from the tail is exactly that policy. -/
def nub : List Str → List Str
  | [] => []
  | a :: rest => a :: nub (rest.filter (fun b => decide (b ≠ a)))
termination_by l => l.length
decreasing_by
  exact Nat.lt_succ_of_le (List.length_filter_le _ _)

/-- Helper for `whitespaceTokenCount`: count maximal runs of non-whitespace
characters; `inTok` records whether the previous character was inside one. -/
def countTokensAux : Str → Bool → ℕ
  | [], _ => 0
  | c :: rest, inTok =>
    if c.isWhitespace then countTokensAux rest false
    else (if inTok then 0 else 1) + countTokensAux rest true

/-- Spec-side definition, following the spec wording: the "whitespace-delimited token count" of a
string, i.e. the number of maximal whitespace-free runs (what Go
`len(strings.Fields(s))` would compute — note the source code does NOT use
this; it splits on the single space character instead). -/
def whitespaceTokenCount (s : Str) : ℕ :=
  countTokensAux s false

/-! ### Vector records and similarity -/

/-- The persisted record: an embedding vector and the chunk text. -/
structure VectorDocument where
  Embedding : List ℚ
  Content : Str
deriving DecidableEq

/-- Go `dotproduct`: 0 on length mismatch, otherwise the running-sum loop
over the elementwise products. -/
def dotproduct (a b : List ℚ) : ℚ :=
  if a.length ≠ b.length then 0
  else (a.zip b).foldl (fun dp p => dp + p.1 * p.2) 0

/-- Go `magnitude`: the running sum of the squares of the components.
No square root is taken (`math.Pow(x, 2)` summed, nothing more). -/
def magnitude (a : List ℚ) : ℚ :=
  a.foldl (fun mag x => mag + x ^ 2) 0

/-- Go `similarity`: `dotproduct(a,b) / (magnitude(a) * magnitude(b))`.
(Division by zero is 0 in `ℚ`; Go would produce `NaN`/`Inf` there, so
theorems relying on it carry nonzero-magnitude hypotheses.) -/
def similarity (a b : List ℚ) : ℚ :=
  dotproduct a b / (magnitude a * magnitude b)

/-! Spec-side definitions for the similarity claim. -/

/-- Spec-side definition, following the spec wording: the elementwise-product sum. -/
def specDot (a b : List ℚ) : ℚ :=
  (List.zipWith (fun x y => x * y) a b).sum

/-- Spec-side definition, following the spec wording: the sum of squares of the components, with no
square root taken. -/
def specSumsq (a : List ℚ) : ℚ :=
  (a.map (fun x => x ^ 2)).sum

/-! ### Top-k retrieval (`getSimilarChunks`) -/

/-- Insertion into the Go map `map[float32]string`: overwrite the value if
the key is present, otherwise add a new key. -/
def mapInsert (m : List (ℚ × Str)) (k : ℚ) (v : Str) : List (ℚ × Str) :=
  if k ∈ m.map Prod.fst then
    m.map (fun p => if p.1 = k then (p.1, v) else p)
  else
    m ++ [(k, v)]

/-- Go map indexing `chunks[key]` for a key known to be present (absent keys
would yield the zero value `""`). -/
def mapLookup : List (ℚ × Str) → ℚ → Str
  | [], _ => []
  | p :: rest, k => if p.1 = k then p.2 else mapLookup rest k

/-- The first loop of `getSimilarChunks`: build the similarity-keyed map from
the stored records, in insertion order. -/
def chunksMap (docs : List VectorDocument) (q : List ℚ) : List (ℚ × Str) :=
  docs.foldl (fun m doc => mapInsert m (similarity q doc.Embedding) doc.Content) []

/-- Generalization of `getSimilarChunks` over `k` (the source hard-codes `k = 3`):
collect the map's keys, sort them descending, take the first `k`, and return
each key's chunk.  `q` is the embedding of the question (the embedding call
itself is the external collaborator).  The Go slice expression `keys[:k]`
panics when fewer than `k` keys exist (its capacity is the key count), which
is embedded as `none`. -/
def getSimilarChunksK (docs : List VectorDocument) (q : List ℚ) (k : ℕ) :
    Option (List Str) :=
  let m := chunksMap docs q
  let keys := m.map Prod.fst
  let sorted := List.insertionSort (fun a b => b ≤ a) keys
  if k ≤ sorted.length then
    some ((sorted.take k).map (fun key => mapLookup m key))
  else
    none

/-- Go `getSimilarChunks`: the `k = 3` instance, as in the source. -/
def getSimilarChunks (docs : List VectorDocument) (q : List ℚ) : Option (List Str) :=
  getSimilarChunksK docs q 3

/-- Spec-side ranking: the stored records sorted by descending similarity to
the query embedding. -/
def rankedByDescSim (q : List ℚ) (docs : List VectorDocument) : List VectorDocument :=
  List.insertionSort
    (fun d e => similarity q e.Embedding ≤ similarity q d.Embedding) docs

/-! ### Persistence (`addVectorDocuments`, `loadVdb`) -/

/-- The durable `vdb.gob` snapshot: absent, present but undecodable, or a
decoded record sequence. -/
inductive DiskState where
  | absent : DiskState
  | corrupt : DiskState
  | snapshot : List VectorDocument → DiskState
deriving DecidableEq

/-- The program state the store touches: the in-memory `vdb` slice and the
durable snapshot. -/
structure StoreState where
  vdb : List VectorDocument
  disk : DiskState
deriving DecidableEq

/-- The records a later decode of the snapshot would yield. -/
def snapshotRecords : DiskState → List VectorDocument
  | DiskState.snapshot l => l
  | _ => []

/-- The loop of `addVectorDocuments`: `for i, c := range content` appends
`VectorDocument{embeddings[i], c}` to `vdb`.  The indexing `embeddings[i]`
panics — `none` — when `i` is out of range (which happens whenever the
embedding call failed and returned fewer vectors than there are chunks). -/
def addDocsLoop (embeddings : List (List ℚ)) :
    List VectorDocument → List (ℕ × Str) → Option (List VectorDocument)
  | vdb, [] => some vdb
  | vdb, (i, c) :: rest =>
    match embeddings[i]? with
    | none => none
    | some e => addDocsLoop embeddings (vdb ++ [⟨e, c⟩]) rest

/-- Go `addVectorDocuments`, with the result of `getEmbeddings` supplied by
the caller: `embeddings` is the returned batch and `embedErr` records whether
the call returned an error (the code only logs it and carries on, so the
parameter is never consulted).  On success the whole in-memory sequence —
which is never reloaded from disk first — is encoded over the old snapshot. -/
def addVectorDocuments (st : StoreState) (content : List Str)
    (embeddings : List (List ℚ)) (embedErr : Bool) : Option StoreState :=
  match addDocsLoop embeddings st.vdb content.enum with
  | none => none
  | some v => some ⟨v, DiskState.snapshot v⟩

/-- The records `content` and `embeddings` combine into, when the embeddings
cover every chunk. -/
def zipDocs (content : List Str) (embeddings : List (List ℚ)) : List VectorDocument :=
  List.zipWith (fun c e => VectorDocument.mk e c) content embeddings

/-- Go `loadVdb`: replace the in-memory sequence with the decoded snapshot;
on an open error (absent file) or a decode error it logs and returns early,
leaving the in-memory sequence as it was. -/
def loadVdb (st : StoreState) : StoreState :=
  match st.disk with
  | DiskState.absent => st
  | DiskState.corrupt => st
  | DiskState.snapshot l => ⟨l, st.disk⟩

/-! ### Helper lemmas -/

theorem foldl_add_eq {α : Type} (f : α → ℚ) :
    ∀ (l : List α) (c : ℚ), l.foldl (fun s x => s + f x) c = c + (l.map f).sum
  | [], c => by simp
  | x :: rest, c => by
    rw [List.foldl_cons, foldl_add_eq f rest (c + f x)]
    simp [add_assoc]

theorem map_zip_eq_zipWith :
    ∀ a b : List ℚ, (a.zip b).map (fun p => p.1 * p.2) = List.zipWith (fun x y => x * y) a b
  | [], _ => by simp
  | _ :: _, [] => by simp
  | x :: a, y :: b => by
    simp [List.zip_cons_cons, map_zip_eq_zipWith a b]

theorem dotproduct_eq_specDot (a b : List ℚ) (h : a.length = b.length) :
    dotproduct a b = specDot a b := by
  rw [dotproduct, if_neg (by simp [h]), specDot,
    foldl_add_eq (fun p : ℚ × ℚ => p.1 * p.2) (a.zip b) 0, map_zip_eq_zipWith, zero_add]

theorem magnitude_eq_specSumsq (a : List ℚ) : magnitude a = specSumsq a := by
  rw [magnitude, specSumsq, foldl_add_eq (fun x : ℚ => x ^ 2) a 0, zero_add]

theorem removeDuplicatesAux_eq :
    ∀ (s m result : List Str),
      removeDuplicatesAux m result s = result ++ nub (s.filter (fun b => decide (b ∉ m)))
  | [], m, result => by simp [removeDuplicatesAux, nub]
  | item :: rest, m, result => by
    rw [removeDuplicatesAux]
    by_cases hm : item ∈ m
    · rw [if_pos hm, removeDuplicatesAux_eq rest m result, List.filter_cons,
        if_neg (by simp [hm])]
    · have hf :
          List.filter (fun a => decide (a ≠ item) && decide (a ∉ m)) rest
            = List.filter (fun b => decide (b ∉ item :: m)) rest := by
        apply List.filter_congr
        intro b _
        by_cases h1 : b = item <;> by_cases h2 : b ∈ m <;> simp [h1, h2]
      rw [if_neg hm, removeDuplicatesAux_eq rest (item :: m) (result ++ [item]),
        List.filter_cons, if_pos (by simp [hm]), nub, List.filter_filter, hf,
        List.append_assoc, List.singleton_append]

theorem removeDuplicates_eq_nub (s : List Str) : removeDuplicates s = nub s := by
  rw [removeDuplicates, removeDuplicatesAux_eq s [] [], List.nil_append]
  congr 1
  apply List.filter_eq_self.mpr
  intro b _
  simp

theorem nub_sublist : ∀ l : List Str, (nub l).Sublist l
  | [] => by rw [nub]
  | a :: rest => by
    rw [nub]
    exact List.Sublist.cons₂ a ((nub_sublist _).trans (List.filter_sublist _))
termination_by l => l.length
decreasing_by
  exact Nat.lt_succ_of_le (List.length_filter_le _ _)

theorem nub_nodup : ∀ l : List Str, (nub l).Nodup
  | [] => by rw [nub]; exact List.nodup_nil
  | a :: rest => by
    rw [nub, List.nodup_cons]
    refine ⟨fun ha => ?_, nub_nodup _⟩
    have h2 : a ∈ List.filter (fun b => decide (b ≠ a)) rest :=
      (nub_sublist _).subset ha
    simp at h2
termination_by l => l.length
decreasing_by
  exact Nat.lt_succ_of_le (List.length_filter_le _ _)

theorem removeShortStrings_foldl_eq :
    ∀ (l acc : List Str),
      l.foldl
        (fun result str =>
          if 3 < (splitOnSep ' ' [] str).length then result ++ [str] else result)
        acc
      = acc ++ l.filter (fun s => decide (3 < (splitOnSep ' ' [] s).length))
  | [], acc => by simp
  | s :: rest, acc => by
    rw [List.foldl_cons, List.filter_cons]
    by_cases h : 3 < (splitOnSep ' ' [] s).length
    · rw [if_pos h, if_pos (by simp [h]), removeShortStrings_foldl_eq rest (acc ++ [s]),
        List.append_assoc, List.singleton_append]
    · rw [if_neg h, if_neg (by simp [h]), removeShortStrings_foldl_eq rest acc]

theorem removeShortStrings_eq_filter (l : List Str) :
    removeShortStrings l = l.filter (fun s => decide (3 < (splitOnSep ' ' [] s).length)) := by
  rw [removeShortStrings, removeShortStrings_foldl_eq l [], List.nil_append]

/-! ### Claim C2 -/

/-- C2: for equal-length vectors the program's similarity is
`dot(a,b) / (sumsq(a) * sumsq(b))`, where `sumsq` is the plain sum of
squares — no square root is taken anywhere. -/
theorem similarity_sum_of_squares (a b : List ℚ) (h : a.length = b.length) :
    similarity a b = specDot a b / (specSumsq a * specSumsq b) := by
  rw [similarity, dotproduct_eq_specDot a b h, magnitude_eq_specSumsq,
    magnitude_eq_specSumsq]

/-- Witness for C2 at `a = [1, 2]`, `b = [3, 4]`. -/
theorem similarity_sum_of_squares_witness :
    ([1, 2] : List ℚ).length = ([3, 4] : List ℚ).length ∧
      similarity [1, 2] [3, 4] = specDot [1, 2] [3, 4] / (specSumsq [1, 2] * specSumsq [3, 4]) :=
  ⟨rfl, similarity_sum_of_squares [1, 2] [3, 4] rfl⟩

/-! ### Claim C6 -/

/-- C6 counterexample: the trimmed segment `"a b  c"` (with two spaces before
`c`) has whitespace-delimited token count 3, so the claim says it is excluded
from the chunker's output; the code includes it, because it counts the fields
of a split on the single space character (here 4: `"a"`, `"b"`, `""`, `"c"`). -/
theorem chunk_short_filter_counterexample :
    whitespaceTokenCount ['a', ' ', 'b', ' ', ' ', 'c'] ≤ 3 ∧
      clean ['a', ' ', 'b', ' ', ' ', 'c'] = [['a', ' ', 'b', ' ', ' ', 'c']] := by
  constructor
  · decide
  · decide

/-- C6 amended: a deduplicated trimmed segment is in the chunker's output iff
the number of fields of its split on the single space character `' '` exceeds
3 (consecutive spaces contribute empty fields that are counted; whitespace
other than `' '` does not separate fields). -/
theorem chunk_short_filter_amended (content s : Str) :
    s ∈ clean content ↔
      s ∈ removeDuplicates ((splitOnSep '\n' ['\n'] content).map trimSpace) ∧
        3 < (splitOnSep ' ' [] s).length := by
  rw [clean, removeShortStrings_eq_filter, List.mem_filter]
  simp

/-! ### Claim C7 -/

/-- C7: the chunker deduplicates exactly: the code's `removeDuplicates` keeps
the first occurrence of each exact text in its original relative order (this
is what `nub` does, head kept and later duplicates of it erased), and the
chunker's final output has no duplicate chunk. -/
theorem chunk_dedup_first_occurrence :
    (∀ s : List Str, removeDuplicates s = nub s) ∧
      ∀ content : Str, (clean content).Nodup := by
  refine ⟨removeDuplicates_eq_nub, fun content => ?_⟩
  rw [clean, removeDuplicates_eq_nub, removeShortStrings_eq_filter]
  exact (nub_nodup _).filter _

/-! ### Claim C3 -/

theorem mapInsert_length_le (m : List (ℚ × Str)) (k : ℚ) (v : Str) :
    (mapInsert m k v).length ≤ m.length + 1 := by
  rw [mapInsert]
  split
  · simp
  · simp

theorem chunksMap_foldl_length_le (q : List ℚ) :
    ∀ (docs : List VectorDocument) (m : List (ℚ × Str)),
      (docs.foldl (fun m doc => mapInsert m (similarity q doc.Embedding) doc.Content) m).length
        ≤ m.length + docs.length
  | [], m => by simp
  | d :: rest, m => by
    rw [List.foldl_cons]
    calc (rest.foldl (fun m doc => mapInsert m (similarity q doc.Embedding) doc.Content)
            (mapInsert m (similarity q d.Embedding) d.Content)).length
        ≤ (mapInsert m (similarity q d.Embedding) d.Content).length + rest.length :=
          chunksMap_foldl_length_le q rest _
      _ ≤ m.length + 1 + rest.length :=
          Nat.add_le_add_right (mapInsert_length_le m _ _) _
      _ = m.length + (d :: rest).length := by simp; omega

theorem chunksMap_length_le (docs : List VectorDocument) (q : List ℚ) :
    (chunksMap docs q).length ≤ docs.length := by
  have h := chunksMap_foldl_length_le q docs []
  simpa [chunksMap] using h

/-- C3 counterexample: a store holding the single record `("A", [1])`,
queried with `[1]`: the claim says all available contents — `["A"]` — are
returned, but `getSimilarChunks` fails (`keys[:3]` panics: the `keys` slice
has length and capacity 1). -/
theorem topk_small_store_counterexample :
    getSimilarChunks [⟨[1], ['A']⟩] [1] ≠ some [['A']] := by
  norm_num [getSimilarChunks, getSimilarChunksK, chunksMap, mapInsert,
    similarity, dotproduct, magnitude, List.insertionSort, List.orderedInsert]
  decide

/-- C3 amended: on a store with fewer than 3 records `getSimilarChunks`
always fails — the Go expression `keys[:3]` panics because the key slice's
capacity is the key count, which is at most the record count — instead of
truncating to the available records. -/
theorem topk_small_store_panics (docs : List VectorDocument) (q : List ℚ)
    (h : docs.length < 3) : getSimilarChunks docs q = none := by
  have hkeys :
      (List.insertionSort (fun a b => b ≤ a) ((chunksMap docs q).map Prod.fst)).length < 3 := by
    have hperm := List.perm_insertionSort (fun a b : ℚ => b ≤ a)
      ((chunksMap docs q).map Prod.fst)
    rw [hperm.length_eq, List.length_map]
    exact lt_of_le_of_lt (chunksMap_length_le docs q) h
  simp only [getSimilarChunks, getSimilarChunksK]
  rw [if_neg (by omega)]

/-- Witness for C3 (amended) at a one-record store. -/
theorem topk_small_store_panics_witness :
    ([⟨[1], ['A']⟩] : List VectorDocument).length < 3 ∧
      getSimilarChunks [⟨[1], ['A']⟩] [1] = none :=
  ⟨by decide, topk_small_store_panics [⟨[1], ['A']⟩] [1] (by decide)⟩

/-! ### Claim C1 -/

/-- The store of the spec's end-to-end scenario: contents `"A"`, `"B"`, `"C"`
with embeddings `[1,0]`, `[0,1]`, `[0.9,0.1]`, in insertion order. -/
def docsScenario : List VectorDocument :=
  [⟨[1, 0], ['A']⟩, ⟨[0, 1], ['B']⟩, ⟨[9/10, 1/10], ['C']⟩]

/-- C1 counterexample: top-2 retrieval for query `[1,0]` does NOT return
`["A","C"]`.  Under the program's similarity (sum-of-squares magnitude, no
square root) the scores are `A ↦ 1`, `B ↦ 0`, `C ↦ (9/10)/(82/100) = 45/41`,
so `C` outranks `A`. -/
theorem topk_scenario_counterexample :
    getSimilarChunksK docsScenario [1, 0] 2 ≠ some [['A'], ['C']] := by
  norm_num [getSimilarChunksK, docsScenario, chunksMap, mapInsert, mapLookup,
    similarity, dotproduct, magnitude, List.insertionSort, List.orderedInsert]
  decide

/-- C1 amended: the scenario's top-2 retrieval returns `["C","A"]` — the two
records ranked by descending similarity under the program's similarity
function, whose sum-of-squares magnitude gives `sim(q,C) = 45/41 > 1 =
sim(q,A)`. -/
theorem topk_scenario_amended :
    getSimilarChunksK docsScenario [1, 0] 2 = some [['C'], ['A']] := by
  norm_num [getSimilarChunksK, docsScenario, chunksMap, mapInsert, mapLookup,
    similarity, dotproduct, magnitude, List.insertionSort, List.orderedInsert]

/-! ### Persistence lemmas -/

theorem addDocsLoop_of_short (embeddings : List (List ℚ)) :
    ∀ (cs : List Str) (n : ℕ) (vdb : List VectorDocument),
      cs ≠ [] → embeddings.length < n + cs.length →
      addDocsLoop embeddings vdb (cs.enumFrom n) = none
  | [], _, _ => by intro hne _; exact absurd rfl hne
  | c :: rest, n, vdb => by
    intro _ hlen
    rw [List.enumFrom_cons]
    simp only [addDocsLoop]
    by_cases hn : n < embeddings.length
    · rw [List.getElem?_eq_getElem hn]
      cases rest with
      | nil => simp at hlen; omega
      | cons c2 rest2 =>
        exact addDocsLoop_of_short embeddings (c2 :: rest2) (n + 1) _ (by simp)
          (by simp at hlen ⊢; omega)
    · rw [List.getElem?_eq_none (by omega)]

theorem addDocsLoop_of_covered (embeddings : List (List ℚ)) :
    ∀ (cs : List Str) (n : ℕ) (vdb : List VectorDocument),
      n + cs.length ≤ embeddings.length →
      addDocsLoop embeddings vdb (cs.enumFrom n)
        = some (vdb ++ zipDocs cs (embeddings.drop n))
  | [], n, vdb => by intro _; simp [addDocsLoop, zipDocs]
  | c :: rest, n, vdb => by
    intro hlen
    have hn : n < embeddings.length := by simp at hlen; omega
    rw [List.enumFrom_cons]
    simp only [addDocsLoop]
    rw [List.getElem?_eq_getElem hn]
    show addDocsLoop embeddings (vdb ++ [⟨embeddings[n], c⟩]) (List.enumFrom (n + 1) rest)
        = some (vdb ++ zipDocs (c :: rest) (embeddings.drop n))
    rw [addDocsLoop_of_covered embeddings rest (n + 1) _ (by simp at hlen ⊢; omega)]
    simp only [zipDocs, List.drop_eq_getElem_cons hn, List.zipWith_cons_cons,
      List.append_assoc, List.singleton_append]

theorem addVectorDocuments_of_short (st : StoreState) (content : List Str)
    (embeddings : List (List ℚ)) (embedErr : Bool)
    (h : embeddings.length < content.length) :
    addVectorDocuments st content embeddings embedErr = none := by
  have hne : content ≠ [] := by
    intro hc
    rw [hc] at h
    simp at h
  simp only [addVectorDocuments, List.enum_eq_enumFrom]
  rw [addDocsLoop_of_short embeddings content 0 st.vdb hne (by omega)]

theorem addVectorDocuments_of_covered (st : StoreState) (content : List Str)
    (embeddings : List (List ℚ)) (embedErr : Bool)
    (h : content.length ≤ embeddings.length) :
    addVectorDocuments st content embeddings embedErr
      = some ⟨st.vdb ++ zipDocs content embeddings,
          DiskState.snapshot (st.vdb ++ zipDocs content embeddings)⟩ := by
  simp only [addVectorDocuments, List.enum_eq_enumFrom]
  rw [addDocsLoop_of_covered embeddings content 0 st.vdb (by omega), List.drop_zero]

/-! ### Claim C5 -/

/-- C5 counterexample: with a non-empty chunk list and a failed embedding
call — the in-source failure path returns the empty batch `[][]float32{}` —
the add operation does not terminate normally storing records: the loop's
`embeddings[i]` indexing panics (`none`), so nothing is stored. -/
theorem add_embed_failure_counterexample :
    addVectorDocuments ⟨[], DiskState.absent⟩
      [['a', ' ', 'b', ' ', 'c', ' ', 'd']] [] true = none := by
  decide

/-- C5 amended: the embedding error itself is only logged and changes
nothing (the result is the same as with no error reported), but whenever the
returned embeddings cover fewer entries than there are chunks — in
particular the empty batch returned on the in-source failure path — the add
operation panics on `embeddings[i]` instead of storing records. -/
theorem add_embed_failure_amended (st : StoreState) (content : List Str)
    (embeddings : List (List ℚ)) (embedErr : Bool) :
    (embeddings.length < content.length →
      addVectorDocuments st content embeddings embedErr = none) ∧
    addVectorDocuments st content embeddings embedErr
      = addVectorDocuments st content embeddings false :=
  ⟨fun h => addVectorDocuments_of_short st content embeddings embedErr h, rfl⟩

/-- Witness for C5 (amended): two chunks, no embeddings. -/
theorem add_embed_failure_amended_witness :
    addVectorDocuments ⟨[], DiskState.absent⟩ [['x'], ['y']] [] true = none :=
  (add_embed_failure_amended ⟨[], DiskState.absent⟩ [['x'], ['y']] [] true).1
    (by decide)

/-! ### Claim C8 -/

/-- C8: when an add succeeds, the snapshot it writes holds exactly the
records that were in memory at call time plus the newly created ones — the
add path never reloads the previous snapshot — so any record of the prior
snapshot that was neither in memory nor among the new records is absent from
the new snapshot. -/
theorem add_snapshot_frame (st st2 : StoreState) (content : List Str)
    (embeddings : List (List ℚ)) (embedErr : Bool)
    (h : addVectorDocuments st content embeddings embedErr = some st2) :
    st2.vdb = st.vdb ++ zipDocs content embeddings ∧
    st2.disk = DiskState.snapshot (st.vdb ++ zipDocs content embeddings) ∧
    ∀ r ∈ snapshotRecords st.disk, r ∉ st.vdb → r ∉ zipDocs content embeddings →
      r ∉ snapshotRecords st2.disk := by
  by_cases hlen : content.length ≤ embeddings.length
  · rw [addVectorDocuments_of_covered st content embeddings embedErr hlen] at h
    obtain rfl : (⟨st.vdb ++ zipDocs content embeddings,
        DiskState.snapshot (st.vdb ++ zipDocs content embeddings)⟩ : StoreState) = st2 :=
      Option.some.inj h
    refine ⟨rfl, rfl, ?_⟩
    intro r _ hmem hzip
    simp only [snapshotRecords, List.mem_append]
    rintro (hc | hc)
    · exact hmem hc
    · exact hzip hc
  · rw [addVectorDocuments_of_short st content embeddings embedErr (by omega)] at h
    cases h

/-- Witness for C8: memory empty, prior snapshot holding a stale record,
one new chunk added. -/
theorem add_snapshot_frame_witness :
    addVectorDocuments ⟨[], DiskState.snapshot [⟨[5], ['o']⟩]⟩ [['n']] [[2]] false
      = some ⟨[⟨[2], ['n']⟩], DiskState.snapshot [⟨[2], ['n']⟩]⟩ ∧
    (⟨[⟨[2], ['n']⟩], DiskState.snapshot [⟨[2], ['n']⟩]⟩ : StoreState).disk
      = DiskState.snapshot
          ((⟨[], DiskState.snapshot [⟨[5], ['o']⟩]⟩ : StoreState).vdb
            ++ zipDocs [['n']] [[2]]) :=
  ⟨rfl,
    (add_snapshot_frame ⟨[], DiskState.snapshot [⟨[5], ['o']⟩]⟩
      ⟨[⟨[2], ['n']⟩], DiskState.snapshot [⟨[2], ['n']⟩]⟩ [['n']] [[2]] false rfl).2.1⟩

/-! ### Claim C9 -/

/-- C9: starting from an empty store with no snapshot, appending two records
and then loading yields exactly those two records, contents and embeddings
preserved. -/
theorem append_load_roundtrip (r1 r2 : VectorDocument) :
    addVectorDocuments ⟨[], DiskState.absent⟩ [r1.Content, r2.Content]
        [r1.Embedding, r2.Embedding] false
      = some ⟨[r1, r2], DiskState.snapshot [r1, r2]⟩ ∧
    (loadVdb ⟨[r1, r2], DiskState.snapshot [r1, r2]⟩).vdb = [r1, r2] :=
  ⟨rfl, rfl⟩

/-! ### Claim C10 -/

/-- C10 counterexample: with a record already in memory and the snapshot file
absent, the load operation leaves that record in memory — the in-memory state
is not an empty sequence afterwards, contrary to the claim's "for every prior
in-memory state". -/
theorem load_missing_counterexample :
    (loadVdb ⟨[⟨[1], ['A']⟩], DiskState.absent⟩).vdb ≠ [] := by
  decide

/-- C10 amended: when the snapshot file is absent or fails to decode, the
load operation logs and returns early, leaving the whole state — in
particular the in-memory sequence — unchanged; it is empty afterwards only
because the program always loads into a store that is still empty. -/
theorem load_missing_amended (st : StoreState)
    (h : st.disk = DiskState.absent ∨ st.disk = DiskState.corrupt) :
    loadVdb st = st := by
  rcases h with h | h <;> unfold loadVdb <;> rw [h]

/-- Witness for C10 (amended) at the empty store with no snapshot. -/
theorem load_missing_amended_witness :
    loadVdb ⟨[], DiskState.absent⟩ = ⟨[], DiskState.absent⟩ :=
  load_missing_amended ⟨[], DiskState.absent⟩ (Or.inl rfl)

/-! ### Claim C4 -/

theorem chunksMap_foldl_eq (q : List ℚ) :
    ∀ (docs : List VectorDocument) (m : List (ℚ × Str)),
      (m.map Prod.fst ++ docs.map (fun d => similarity q d.Embedding)).Nodup →
      docs.foldl (fun m doc => mapInsert m (similarity q doc.Embedding) doc.Content) m
        = m ++ docs.map (fun d => (similarity q d.Embedding, d.Content))
  | [], m => by intro _; simp
  | d :: rest, m => by
    intro h
    have hnotin : similarity q d.Embedding ∉ m.map Prod.fst := by
      rcases List.nodup_append.mp h with ⟨_, _, hdisj⟩
      intro hc
      exact hdisj hc (by simp)
    have h2 : ((m ++ [(similarity q d.Embedding, d.Content)]).map Prod.fst
        ++ rest.map (fun d => similarity q d.Embedding)).Nodup := by
      simpa [List.append_assoc] using h
    rw [List.foldl_cons, mapInsert, if_neg hnotin, chunksMap_foldl_eq q rest _ h2,
      List.append_assoc, List.singleton_append, List.map_cons]

theorem chunksMap_eq_of_nodup (docs : List VectorDocument) (q : List ℚ)
    (h : (docs.map (fun d => similarity q d.Embedding)).Nodup) :
    chunksMap docs q = docs.map (fun d => (similarity q d.Embedding, d.Content)) := by
  have hm := chunksMap_foldl_eq q docs [] (by simpa using h)
  simpa [chunksMap] using hm

theorem mapLookup_map_pair (q : List ℚ) :
    ∀ (docs : List VectorDocument) (d : VectorDocument),
      (docs.map (fun d => similarity q d.Embedding)).Nodup → d ∈ docs →
      mapLookup (docs.map (fun d => (similarity q d.Embedding, d.Content)))
        (similarity q d.Embedding) = d.Content
  | [], d => by intro _ hd; simp at hd
  | d0 :: rest, d => by
    intro hnodup hd
    rw [List.map_cons] at hnodup ⊢
    rw [List.nodup_cons] at hnodup
    simp only [mapLookup]
    rcases List.mem_cons.mp hd with rfl | hd2
    · rw [if_pos rfl]
    · have hne : similarity q d0.Embedding ≠ similarity q d.Embedding := by
        intro hc
        exact hnodup.1 (hc ▸ List.mem_map_of_mem _ hd2)
      rw [if_neg hne]
      exact mapLookup_map_pair q rest d hnodup.2 hd2

theorem rankedByDescSim_perm (q : List ℚ) (docs : List VectorDocument) :
    List.Perm (rankedByDescSim q docs) docs := by
  unfold rankedByDescSim
  exact List.perm_insertionSort _ _

theorem rankedByDescSim_sorted (q : List ℚ) (docs : List VectorDocument) :
    List.Sorted (fun d e => similarity q e.Embedding ≤ similarity q d.Embedding)
      (rankedByDescSim q docs) := by
  haveI : IsTotal VectorDocument
      (fun d e => similarity q e.Embedding ≤ similarity q d.Embedding) :=
    ⟨fun a b => le_total _ _⟩
  haveI : IsTrans VectorDocument
      (fun d e => similarity q e.Embedding ≤ similarity q d.Embedding) :=
    ⟨fun a b c hab hbc => le_trans hbc hab⟩
  unfold rankedByDescSim
  exact List.sorted_insertionSort _ _

theorem sorted_keys_eq (docs : List VectorDocument) (q : List ℚ) :
    List.insertionSort (fun a b => b ≤ a)
        (docs.map (fun d => similarity q d.Embedding))
      = (rankedByDescSim q docs).map (fun d => similarity q d.Embedding) := by
  haveI : IsTotal ℚ (fun a b => b ≤ a) := ⟨fun a b => le_total b a⟩
  haveI : IsTrans ℚ (fun a b => b ≤ a) := ⟨fun a b c hab hbc => le_trans hbc hab⟩
  haveI hAnti : IsAntisymm ℚ (fun a b => b ≤ a) :=
    ⟨fun a b hab hba => le_antisymm hba hab⟩
  refine @List.eq_of_perm_of_sorted ℚ (fun a b => b ≤ a) hAnti _ _ ?_ ?_ ?_
  · exact (List.perm_insertionSort _ _).trans
      ((rankedByDescSim_perm q docs).map _).symm
  · exact List.sorted_insertionSort _ _
  · exact List.Pairwise.map _ (fun a b hab => hab) (rankedByDescSim_sorted q docs)

/-- C4 counterexample: a store of three records where two have equal
similarity to the query (`A` and `B` both have embedding `[1,0]`, the query
is `[1,0]`): the Go similarity map collapses the two equal keys, leaving only
2 keys, and `keys[:3]` panics instead of returning 3 contents. -/
theorem topk_three_counterexample :
    getSimilarChunks [⟨[1, 0], ['A']⟩, ⟨[1, 0], ['B']⟩, ⟨[0, 1], ['C']⟩] [1, 0]
      = none := by
  norm_num [getSimilarChunks, getSimilarChunksK, chunksMap, mapInsert,
    similarity, dotproduct, magnitude, List.insertionSort, List.orderedInsert]

/-- C4 amended: on a store of at least 3 records whose similarities to the
query are pairwise distinct (and with nonzero magnitudes, so that the exact
rational model agrees with Go's `float32` division — Go produces `NaN`s on
zero magnitudes), `getSimilarChunks` returns exactly 3 contents: those of
the 3 records most similar to the query, in descending similarity order. -/
theorem topk_three_amended (docs : List VectorDocument) (q : List ℚ)
    (hlen : 3 ≤ docs.length)
    (hnodup : (docs.map (fun d => similarity q d.Embedding)).Nodup)
    (hq : magnitude q ≠ 0)
    (hdocs : ∀ d ∈ docs, magnitude d.Embedding ≠ 0) :
    getSimilarChunks docs q
      = some (((rankedByDescSim q docs).take 3).map VectorDocument.Content) ∧
    (((rankedByDescSim q docs).take 3).map VectorDocument.Content).length = 3 := by
  have hranklen : (rankedByDescSim q docs).length = docs.length :=
    (rankedByDescSim_perm q docs).length_eq
  constructor
  · simp only [getSimilarChunks, getSimilarChunksK]
    rw [chunksMap_eq_of_nodup docs q hnodup, List.map_map]
    have hcomp :
        (Prod.fst ∘ fun d : VectorDocument => (similarity q d.Embedding, d.Content))
          = fun d : VectorDocument => similarity q d.Embedding := by
      funext d
      rfl
    rw [hcomp, sorted_keys_eq docs q]
    have hslen :
        ((rankedByDescSim q docs).map (fun d => similarity q d.Embedding)).length
          = docs.length := by
      rw [List.length_map, hranklen]
    rw [if_pos (by rw [hslen]; omega), ← List.map_take, List.map_map]
    congr 1
    apply List.map_congr_left
    intro d hd
    have hddocs : d ∈ docs :=
      (rankedByDescSim_perm q docs).subset (List.mem_of_mem_take hd)
    exact mapLookup_map_pair q docs d hnodup hddocs
  · rw [List.length_map, List.length_take, hranklen]
    omega

/-- Witness for C4 (amended) on the scenario store, query `[1, 0]`. -/
theorem topk_three_amended_witness :
    3 ≤ docsScenario.length ∧
      getSimilarChunks docsScenario [1, 0]
        = some (((rankedByDescSim [1, 0] docsScenario).take 3).map VectorDocument.Content) :=
  ⟨by decide,
    (topk_three_amended docsScenario [1, 0] (by decide)
      (by norm_num [docsScenario, similarity, dotproduct, magnitude])
      (by norm_num [magnitude])
      (by
        intro d hd
        simp only [docsScenario, List.mem_cons, List.not_mem_nil, or_false] at hd
        rcases hd with rfl | rfl | rfl <;> norm_num [magnitude])).1⟩

end Vdb
